import Mathlib

/-
  Verification of the LinnFS filesystem core (LinnFileSystem.cpp):
  block-address translation (getOffset), the inode loader/cache (getInode,
  getGroup, getGroupByInode) and the path resolver over the file-cache tree
  (lookupFile).  The C++ is shallowly embedded: u64 arithmetic is Nat with
  an explicit modulus 2^64 where wraparound matters, storage reads are
  functions into Option (none = failing read, mirroring a negative return
  of Storage::read), and the mutable caches are threaded explicitly.
-/

set_option autoImplicit false

namespace LinnFS

/-- Modulus of 64-bit unsigned machine arithmetic (type u64 / le64). -/
def u64size : Nat := 2 ^ 64

/-- File type tags of the generic filesystem layer (FileType enum).
The LinnFileSystem code distinguishes DirectoryFile and RegularFile and
treats every other tag as unsupported. -/
inductive FileType where
  | RegularFile
  | DirectoryFile
  | BlockDeviceFile
  | CharacterDeviceFile
  | SymlinkFile
  | FIFOFile
  deriving DecidableEq

/-- The superblock fields consumed by the translated routines
(LinnSuperBlock: blockSize, inodesCount, inodesPerGroup). -/
structure LinnSuperBlock where
  blockSize : Nat
  inodesCount : Nat
  inodesPerGroup : Nat
  deriving DecidableEq

/-- A group descriptor: location (block number) of the group's inode table. -/
structure LinnGroup where
  inodeTable : Nat
  deriving DecidableEq

/-- An on-disk inode record: type tag, size, and the block-pointer array
(a prefix of direct pointers, then the single/double/triple indirect slots). -/
structure LinnInode where
  type : FileType
  size : Nat
  block : List Nat
  deriving DecidableEq

/-- Indexing into the inode's block-pointer array (inode->block[i]). -/
def blockAt (inode : LinnInode) (i : Nat) : Nat :=
  inode.block.getD i 0

/-- Modelled from the spec: the count of direct block pointers in an inode
(macro LINN_INODE_DIR_BLOCKS of LinnInode.h, not present under src/); the
spec fixes only that a prefix of the pointer array is direct, followed by
the three indirect slots, so the classic prefix length 4 is used. -/
def LINN_INODE_DIR_BLOCKS : Nat := 4

/-- Modelled from the spec: pointers per indirection block, the fan-out
`blockSize / pointerSize` with 8-byte (u64) pointers (macro
LINN_SUPER_NUM_PTRS of LinnSuperBlock.h, not present under src/). -/
def LINN_SUPER_NUM_PTRS (sb : LinnSuperBlock) : Nat :=
  sb.blockSize / 8

/-- Modelled from the spec: number of group descriptors,
`ceil(inodesCount / inodesPerGroup)` (macro LINN_GROUP_COUNT of
LinnGroup.h, not present under src/). -/
def LINN_GROUP_COUNT (sb : LinnSuperBlock) : Nat :=
  (sb.inodesCount + sb.inodesPerGroup - 1) / sb.inodesPerGroup

/-- The `remain` computation of getOffset: starting from the fan-out, the
loop `for (i = 0; i < depth - 1; i++) remain *= remain` squares `remain`
(depth - 1) times ("effectively the pow() function" per the source). -/
def remainLoop (r : Nat) : Nat → Nat
  | 0 => r
  | k + 1 => remainLoop (r * r) k

/-- The indirection-depth selection of getOffset for blk at or past the
direct range: depth 1 while blk - LINN_INODE_DIR_BLOCKS < numPerBlock,
depth 2 while blk - LINN_INODE_DIR_BLOCKS < numPerBlock * numPerBlock,
depth 3 otherwise. -/
def depthFor (sb : LinnSuperBlock) (blk : Nat) : Nat :=
  if blk - LINN_INODE_DIR_BLOCKS < LINN_SUPER_NUM_PTRS sb then 1
  else if blk - LINN_INODE_DIR_BLOCKS <
      LINN_SUPER_NUM_PTRS sb * LINN_SUPER_NUM_PTRS sb then 2
  else 3

/-- The `while (depth > 0)` loop of getOffset.  `pdisk` maps a byte offset
to the pointer-block contents read there (none = failing read; the source
checks `storage->read(...) < 0` and returns 0).  The result is the block
buffer still held after the loop (the source indexes it once more after the
loop) together with the number of storage reads performed.  At each step
with current depth d+2 the next offset is
`block[remain / (blk - LINN_INODE_DIR_BLOCKS + 1)] * blockSize` with
`remain` squared (current depth - 1) times; the value computed in the final
iteration (depth 1) is dead in the source, overwritten right after the
loop, and is omitted. -/
def getOffsetLoop (sb : LinnSuperBlock) (pdisk : Nat → Option (Nat → Nat))
    (blk : Nat) : Nat → Nat → Option (Nat → Nat) × Nat
  | 0, _ => (none, 0)
  | 1, offset =>
    match pdisk offset with
    | none => (none, 1)
    | some block => (some block, 1)
  | Nat.succ (Nat.succ d), offset =>
    match pdisk offset with
    | none => (none, 1)
    | some block =>
      let remain := remainLoop (LINN_SUPER_NUM_PTRS sb) (Nat.succ d)
      let offset2 := block (remain / (blk - LINN_INODE_DIR_BLOCKS + 1)) *
        sb.blockSize % u64size
      let r := getOffsetLoop sb pdisk blk (Nat.succ d) offset2
      (r.1, r.2 + 1)

/-- LinnFileSystem::getOffset, instrumented with the count of storage reads
performed.  Direct blocks return `inode->block[blk] * blockSize` with no
read; otherwise the walk starts at the inode's indirect slot for the
selected depth and, after the loop, indexes the last block read at
`(blk - LINN_INODE_DIR_BLOCKS) % numPerBlock`.  A failing read inside the
loop yields offset 0. -/
def getOffset (sb : LinnSuperBlock) (pdisk : Nat → Option (Nat → Nat))
    (inode : LinnInode) (blk : Nat) : Nat × Nat :=
  if blk < LINN_INODE_DIR_BLOCKS then
    (blockAt inode blk * sb.blockSize % u64size, 0)
  else
    let depth := depthFor sb blk
    let offset0 := blockAt inode (LINN_INODE_DIR_BLOCKS + depth - 1) *
      sb.blockSize % u64size
    match getOffsetLoop sb pdisk blk depth offset0 with
    | (none, c) => (0, c)
    | (some block, c) =>
      (block ((blk - LINN_INODE_DIR_BLOCKS) % LINN_SUPER_NUM_PTRS sb) *
        sb.blockSize % u64size, c)

end LinnFS

namespace LinnFS

/-! Concrete data for evaluating getOffset: fan-out 2 (blockSize 16). -/

/-- A small superblock: blockSize 16 (so fan-out numPerBlock = 2),
100 inodes, 2 inodes per group. -/
def sbA : LinnSuperBlock := ⟨16, 100, 2⟩

/-- An inode whose double-indirect slot (index LINN_INODE_DIR_BLOCKS + 1)
points at block 1. -/
def inodeA : LinnInode := ⟨FileType.RegularFile, 0, [0, 0, 0, 0, 0, 1, 0]⟩

/-- A pointer-block disk for `sbA`: block 1 (byte 16) holds pointers
[100, 200]; block 200 (byte 3200) holds [300, 301]; block 100 (byte 1600)
holds [999, 998].  Every other offset fails to read. -/
def pdiskA : Nat → Option (Nat → Nat) := fun o =>
  if o = 16 then some (fun i => if i = 0 then 100 else if i = 1 then 200 else 0)
  else if o = 3200 then some (fun i => if i = 0 then 300 else if i = 1 then 301 else 0)
  else if o = 1600 then some (fun i => if i = 0 then 999 else if i = 1 then 998 else 0)
  else none

/-- Claim C1 (code_bug evidence): at fan-out 2, logical block 6 lies in the
double-indirect range with zero offset into it (blk - (dir + fanout) = 0),
so modulus/digit slot selection would use slot 0 of the first-level pointer
block at every level; the code instead computes the intermediate slot as
`remain / (blk - dir + 1)` = 4 / 3 = 1, follows pointer 200 rather than
pointer 100, and returns 300 * 16 = 4800 after two reads — whereas the
remainder decomposition digit for the intermediate level is 0 and the
slot-0 chain would end at 999 * 16 = 15984. -/
theorem getOffset_intermediate_slot_division :
    getOffset sbA pdiskA inodeA 6 = (4800, 2) ∧
    remainLoop (LINN_SUPER_NUM_PTRS sbA) 1 / (6 - LINN_INODE_DIR_BLOCKS + 1) = 1 ∧
    (6 - (LINN_INODE_DIR_BLOCKS + LINN_SUPER_NUM_PTRS sbA)) /
      LINN_SUPER_NUM_PTRS sbA % LINN_SUPER_NUM_PTRS sbA = 0 ∧
    (999 * sbA.blockSize % u64size, 2) ≠ (4800, 2) := by
  refine ⟨by decide, by decide, by decide, by decide⟩

/-- Claim C2 (counterexample): with fan-out 2 and direct count 4, logical
block 8 satisfies the claimed depth-2 condition
`numPerBlock ≤ blk - dir < numPerBlock + numPerBlock²` (2 ≤ 4 < 6), yet the
code selects depth 3, because its guard is `blk - dir < numPerBlock²`. -/
theorem depthFor_claim_counterexample :
    LINN_SUPER_NUM_PTRS sbA ≤ 8 - LINN_INODE_DIR_BLOCKS ∧
    8 - LINN_INODE_DIR_BLOCKS <
      LINN_SUPER_NUM_PTRS sbA + LINN_SUPER_NUM_PTRS sbA * LINN_SUPER_NUM_PTRS sbA ∧
    depthFor sbA 8 ≠ 2 := by
  decide

/-- Claim C2 (amended): for blk at or past the direct range, the code's
depth ranges are: depth 1 iff blk - dir < numPerBlock, depth 2 iff
numPerBlock ≤ blk - dir < numPerBlock² (not numPerBlock + numPerBlock²),
depth 3 iff numPerBlock² ≤ blk - dir. -/
theorem depthFor_ranges (sb : LinnSuperBlock) (blk : Nat)
    (hblk : LINN_INODE_DIR_BLOCKS ≤ blk) :
    (depthFor sb blk = 1 ↔ blk - LINN_INODE_DIR_BLOCKS < LINN_SUPER_NUM_PTRS sb) ∧
    (depthFor sb blk = 2 ↔
      (LINN_SUPER_NUM_PTRS sb ≤ blk - LINN_INODE_DIR_BLOCKS ∧
       blk - LINN_INODE_DIR_BLOCKS < LINN_SUPER_NUM_PTRS sb * LINN_SUPER_NUM_PTRS sb)) ∧
    (depthFor sb blk = 3 ↔
      LINN_SUPER_NUM_PTRS sb * LINN_SUPER_NUM_PTRS sb ≤ blk - LINN_INODE_DIR_BLOCKS) := by
  have hPP : LINN_SUPER_NUM_PTRS sb ≤ LINN_SUPER_NUM_PTRS sb * LINN_SUPER_NUM_PTRS sb := by
    rcases Nat.eq_zero_or_pos (LINN_SUPER_NUM_PTRS sb) with h0 | h1
    · simp [h0]
    · exact Nat.le_mul_of_pos_left _ h1
  unfold depthFor
  rcases Nat.lt_or_ge (blk - LINN_INODE_DIR_BLOCKS) (LINN_SUPER_NUM_PTRS sb) with h | h
  · simp [h, Nat.not_le.mpr h, Nat.lt_of_lt_of_le h hPP]
  · rcases Nat.lt_or_ge (blk - LINN_INODE_DIR_BLOCKS)
        (LINN_SUPER_NUM_PTRS sb * LINN_SUPER_NUM_PTRS sb) with h2 | h2
    · simp [Nat.not_lt.mpr h, h2, h]
    · simp [Nat.not_lt.mpr h, Nat.not_lt.mpr h2, h2]

/-- Witness for depthFor_ranges at blk = 8 over sbA. -/
theorem depthFor_ranges_witness :
    LINN_INODE_DIR_BLOCKS ≤ 8 ∧
    (depthFor sbA 8 = 3 ↔
      LINN_SUPER_NUM_PTRS sbA * LINN_SUPER_NUM_PTRS sbA ≤ 8 - LINN_INODE_DIR_BLOCKS) :=
  ⟨by decide, (depthFor_ranges sbA 8 (by decide)).2.2⟩

/-- The depth selected by getOffset is always at least 1. -/
theorem depthFor_pos (sb : LinnSuperBlock) (blk : Nat) : 1 ≤ depthFor sb blk := by
  unfold depthFor
  split
  · exact Nat.le_refl 1
  · split
    · omega
    · omega

/-- The loop performs at most `depth` storage reads. -/
theorem getOffsetLoop_reads_le (sb : LinnSuperBlock) (pdisk : Nat → Option (Nat → Nat))
    (blk : Nat) : ∀ d offset, (getOffsetLoop sb pdisk blk d offset).2 ≤ d
  | 0, _ => by simp [getOffsetLoop]
  | 1, offset => by
    cases h : pdisk offset <;> simp [getOffsetLoop, h]
  | Nat.succ (Nat.succ d), offset => by
    cases h : pdisk offset with
    | none => simp [getOffsetLoop, h]
    | some block =>
      have ih := getOffsetLoop_reads_le sb pdisk blk (Nat.succ d)
        (block (remainLoop (LINN_SUPER_NUM_PTRS sb) (Nat.succ d) /
          (blk - LINN_INODE_DIR_BLOCKS + 1)) * sb.blockSize % u64size)
      simp only [getOffsetLoop, h]
      omega

/-- When every storage read succeeds, the loop at depth d ≥ 1 returns a
block and performs exactly d reads. -/
theorem getOffsetLoop_total (sb : LinnSuperBlock) (pdisk : Nat → Option (Nat → Nat))
    (blk : Nat) (hdisk : ∀ o, (pdisk o).isSome) :
    ∀ d offset, 1 ≤ d → ∃ b, getOffsetLoop sb pdisk blk d offset = (some b, d)
  | 0, _, h => absurd h (by omega)
  | 1, offset, _ => by
    cases h : pdisk offset with
    | none => exact absurd (hdisk offset) (by simp [h])
    | some block => exact ⟨block, by simp [getOffsetLoop, h]⟩
  | Nat.succ (Nat.succ d), offset, _ => by
    cases h : pdisk offset with
    | none => exact absurd (hdisk offset) (by simp [h])
    | some block =>
      obtain ⟨b, hb⟩ := getOffsetLoop_total sb pdisk blk hdisk (Nat.succ d)
        (block (remainLoop (LINN_SUPER_NUM_PTRS sb) (Nat.succ d) /
          (blk - LINN_INODE_DIR_BLOCKS + 1)) * sb.blockSize % u64size)
        (Nat.le_add_left 1 d)
      exact ⟨b, by simp [getOffsetLoop, h, hb]⟩

/-- When every storage read succeeds and blk requires indirection, the
number of reads getOffset performs equals the selected depth. -/
theorem getOffset_reads_eq_depth (sb : LinnSuperBlock) (pdisk : Nat → Option (Nat → Nat))
    (inode : LinnInode) (blk : Nat) (hdisk : ∀ o, (pdisk o).isSome)
    (hblk : LINN_INODE_DIR_BLOCKS ≤ blk) :
    (getOffset sb pdisk inode blk).2 = depthFor sb blk := by
  obtain ⟨b, hb⟩ := getOffsetLoop_total sb pdisk blk hdisk (depthFor sb blk)
    (blockAt inode (LINN_INODE_DIR_BLOCKS + depthFor sb blk - 1) *
      sb.blockSize % u64size) (depthFor_pos sb blk)
  simp [getOffset, Nat.not_lt.mpr hblk, hb]

/-- Claim C3: with all storage reads succeeding, getOffset performs zero
reads for blk in the direct range, exactly one read for blk in the
single-indirect range, exactly two for the double-indirect range and
exactly three for the triple-indirect range. -/
theorem getOffset_read_counts (sb : LinnSuperBlock) (pdisk : Nat → Option (Nat → Nat))
    (inode : LinnInode) (blk : Nat) (hdisk : ∀ o, (pdisk o).isSome) :
    (blk < LINN_INODE_DIR_BLOCKS → (getOffset sb pdisk inode blk).2 = 0) ∧
    (LINN_INODE_DIR_BLOCKS ≤ blk →
      blk - LINN_INODE_DIR_BLOCKS < LINN_SUPER_NUM_PTRS sb →
      (getOffset sb pdisk inode blk).2 = 1) ∧
    (LINN_INODE_DIR_BLOCKS ≤ blk →
      LINN_SUPER_NUM_PTRS sb ≤ blk - LINN_INODE_DIR_BLOCKS →
      blk - LINN_INODE_DIR_BLOCKS < LINN_SUPER_NUM_PTRS sb * LINN_SUPER_NUM_PTRS sb →
      (getOffset sb pdisk inode blk).2 = 2) ∧
    (LINN_INODE_DIR_BLOCKS ≤ blk →
      LINN_SUPER_NUM_PTRS sb * LINN_SUPER_NUM_PTRS sb ≤ blk - LINN_INODE_DIR_BLOCKS →
      (getOffset sb pdisk inode blk).2 = 3) := by
  refine ⟨fun h => ?_, fun h h1 => ?_, fun h h1 h2 => ?_, fun h h1 => ?_⟩
  · simp [getOffset, h]
  · rw [getOffset_reads_eq_depth sb pdisk inode blk hdisk h]
    exact ((depthFor_ranges sb blk h).1).mpr h1
  · rw [getOffset_reads_eq_depth sb pdisk inode blk hdisk h]
    exact ((depthFor_ranges sb blk h).2.1).mpr ⟨h1, h2⟩
  · rw [getOffset_reads_eq_depth sb pdisk inode blk hdisk h]
    exact ((depthFor_ranges sb blk h).2.2).mpr h1

/-- A storage on which every pointer-block read succeeds with content 1. -/
def pdiskOne : Nat → Option (Nat → Nat) := fun _ => some fun _ => 1

/-- A storage on which every read fails. -/
def pdiskNone : Nat → Option (Nat → Nat) := fun _ => none

/-- Witness for getOffset_read_counts: over sbA (fan-out 2), block 1 is
direct (0 reads), block 4 single-indirect (1 read), block 6 double-indirect
(2 reads), block 8 triple-indirect (3 reads). -/
theorem getOffset_read_counts_witness :
    (getOffset sbA pdiskOne inodeA 1).2 = 0 ∧
    (getOffset sbA pdiskOne inodeA 4).2 = 1 ∧
    (getOffset sbA pdiskOne inodeA 6).2 = 2 ∧
    (getOffset sbA pdiskOne inodeA 8).2 = 3 :=
  ⟨(getOffset_read_counts sbA pdiskOne inodeA 1 (fun _ => by simp [pdiskOne])).1
      (by decide),
   (getOffset_read_counts sbA pdiskOne inodeA 4 (fun _ => by simp [pdiskOne])).2.1
      (by decide) (by decide),
   (getOffset_read_counts sbA pdiskOne inodeA 6 (fun _ => by simp [pdiskOne])).2.2.1
      (by decide) (by decide) (by decide),
   (getOffset_read_counts sbA pdiskOne inodeA 8 (fun _ => by simp [pdiskOne])).2.2.2
      (by decide) (by decide)⟩

/-- Claim C9: if the indirection walk's reads end in a failure, getOffset
returns the distinct block-unavailable outcome (offset 0) with the read
count at which the failure occurred, performing no further reads (the
count stays at most the selected depth); no storage error code is
propagated. -/
theorem getOffset_read_failure (sb : LinnSuperBlock) (pdisk : Nat → Option (Nat → Nat))
    (inode : LinnInode) (blk : Nat) (c : Nat)
    (hblk : LINN_INODE_DIR_BLOCKS ≤ blk)
    (hfail : getOffsetLoop sb pdisk blk (depthFor sb blk)
      (blockAt inode (LINN_INODE_DIR_BLOCKS + depthFor sb blk - 1) *
        sb.blockSize % u64size) = (none, c)) :
    getOffset sb pdisk inode blk = (0, c) ∧ c ≤ depthFor sb blk := by
  constructor
  · simp [getOffset, Nat.not_lt.mpr hblk, hfail]
  · have h := getOffsetLoop_reads_le sb pdisk blk (depthFor sb blk)
      (blockAt inode (LINN_INODE_DIR_BLOCKS + depthFor sb blk - 1) *
        sb.blockSize % u64size)
    rw [hfail] at h
    exact h

/-- Witness for getOffset_read_failure: with every read failing, the
double-indirect block 6 aborts after the first read with offset 0. -/
theorem getOffset_read_failure_witness :
    getOffset sbA pdiskNone inodeA 6 = (0, 1) ∧ 1 ≤ depthFor sbA 6 :=
  getOffset_read_failure sbA pdiskNone inodeA 6 1 (by decide) (by rfl)

/-! The inode manager: getGroup, getGroupByInode, getInode.  The inode
cache (a HashTable in the source) is an association list updated by
prepending; each getInode result carries the list of byte offsets read
from storage during the call. -/

/-- The inode cache keyed by inode number. -/
abbrev InodeCache : Type := List (Nat × LinnInode)

/-- Cache lookup (`inodes[&inodeInt]` in the source). -/
def lookupCache : InodeCache → Nat → Option LinnInode
  | [], _ => none
  | p :: ps, n => if p.1 = n then some p.2 else lookupCache ps n

/-- Modelled from the spec: bounds-checked group-array indexing
((*groups)[groupNum]; the Array container class is not present under src/,
and the spec prescribes index-addressed, bounds-checked access returning
absence out of range). -/
def getGroup (groups : List LinnGroup) (groupNum : Nat) : Option LinnGroup :=
  groups.get? groupNum

/-- LinnFileSystem::getGroupByInode: the group of an inode number, computed
as (inodeNum - 1) / inodesPerGroup in u64 arithmetic, so that inodeNum = 0
wraps to (2^64 - 1) / inodesPerGroup. -/
def getGroupByInode (sb : LinnSuperBlock) (groups : List LinnGroup)
    (inodeNum : Nat) : Option LinnGroup :=
  getGroup groups ((inodeNum + u64size - 1) % u64size / sb.inodesPerGroup)

/-- LinnFileSystem::getInode, instrumented with the byte offsets read.
`idisk` maps a byte offset to the inode record read there (one read of
sizeof(LinnInode) bytes; none = failing read).  Order as in the source:
range check, cache lookup, group lookup, then one read at
`group->inodeTable * blockSize + inodeNum % inodesPerGroup` and insertion
into the cache on success. -/
def getInode (sb : LinnSuperBlock) (groups : List LinnGroup)
    (idisk : Nat → Option LinnInode) (cache : InodeCache) (inodeNum : Nat) :
    Option LinnInode × InodeCache × List Nat :=
  if inodeNum ≥ sb.inodesCount then (none, cache, [])
  else
    match lookupCache cache inodeNum with
    | some inode => (some inode, cache, [])
    | none =>
      match getGroupByInode sb groups inodeNum with
      | none => (none, cache, [])
      | some group =>
        let offset := (group.inodeTable * sb.blockSize +
          inodeNum % sb.inodesPerGroup) % u64size
        match idisk offset with
        | none => (none, cache, [offset])
        | some inode => (some inode, (inodeNum, inode) :: cache, [offset])

/-- Claim C4: on a cache miss for a valid inode number whose group is
found, getInode reads storage exactly once, at byte offset
`group.inodeTable * blockSize + inodeNum % inodesPerGroup` — the position
of the inode inside its group is added without scaling by the inode
record's size. -/
theorem getInode_miss_single_read (sb : LinnSuperBlock) (groups : List LinnGroup)
    (idisk : Nat → Option LinnInode) (cache : InodeCache) (inodeNum : Nat)
    (group : LinnGroup)
    (hval : inodeNum < sb.inodesCount)
    (hmiss : lookupCache cache inodeNum = none)
    (hgrp : getGroupByInode sb groups inodeNum = some group) :
    (getInode sb groups idisk cache inodeNum).2.2 =
      [(group.inodeTable * sb.blockSize + inodeNum % sb.inodesPerGroup) % u64size] := by
  have hnot : ¬ inodeNum ≥ sb.inodesCount := Nat.not_le.mpr hval
  cases h : idisk ((group.inodeTable * sb.blockSize +
      inodeNum % sb.inodesPerGroup) % u64size) <;>
    simp [getInode, hnot, hmiss, hgrp, h]

/-- Concrete data for the inode manager. -/
def groupsA : List LinnGroup := [⟨5⟩, ⟨7⟩, ⟨9⟩]

/-- A storage holding the same regular-file inode record at every offset. -/
def idiskA : Nat → Option LinnInode := fun _ => some inodeA

/-- Witness for getInode_miss_single_read: inode 3 of sbA lives in group
(3 - 1) / 2 = 1 whose inode table is block 7; the single read happens at
7 * 16 + 3 % 2 = 113. -/
theorem getInode_miss_single_read_witness :
    (getInode sbA groupsA idiskA ([] : InodeCache) 3).2.2 = [113] := by
  have h := getInode_miss_single_read sbA groupsA idiskA ([] : InodeCache) 3 ⟨7⟩
    (by decide) (by rfl) (by rfl)
  simpa using h

/-- Claim C5: when a first getInode call succeeds, a second call for the
same number returns the identical inode record, leaves the cache exactly
as it was, and reads nothing from storage. -/
theorem getInode_idempotent (sb : LinnSuperBlock) (groups : List LinnGroup)
    (idisk : Nat → Option LinnInode) (cache : InodeCache) (inodeNum : Nat)
    (inode : LinnInode) (cache' : InodeCache) (tr : List Nat)
    (hfst : getInode sb groups idisk cache inodeNum = (some inode, cache', tr)) :
    getInode sb groups idisk cache' inodeNum = (some inode, cache', []) := by
  by_cases hge : inodeNum ≥ sb.inodesCount
  · simp [getInode, hge] at hfst
  · cases hc : lookupCache cache inodeNum with
    | some i =>
      have h1 : cache' = cache ∧ inode = i := by
        simp [getInode, hge, hc] at hfst
        exact ⟨hfst.2.1.symm, hfst.1.symm⟩
      rw [h1.1, h1.2]
      simp [getInode, hge, hc]
    | none =>
      cases hg : getGroupByInode sb groups inodeNum with
      | none => simp [getInode, hge, hc, hg] at hfst
      | some group =>
        cases hd : idisk ((group.inodeTable * sb.blockSize +
            inodeNum % sb.inodesPerGroup) % u64size) with
        | none => simp [getInode, hge, hc, hg, hd] at hfst
        | some ino =>
          have h1 : ino = inode ∧ cache' = (inodeNum, ino) :: cache := by
            simp [getInode, hge, hc, hg, hd] at hfst
            exact ⟨hfst.1, hfst.2.1.symm⟩
          have hc2 : lookupCache cache' inodeNum = some inode := by
            rw [h1.2, ← h1.1]
            simp [lookupCache]
          simp [getInode, hge, hc2]

/-- Witness for getInode_idempotent: after a first successful load of
inode 3, the second call hits the cache with no reads. -/
theorem getInode_idempotent_witness :
    getInode sbA groupsA idiskA [(3, inodeA)] 3 = (some inodeA, [(3, inodeA)], []) :=
  getInode_idempotent sbA groupsA idiskA ([] : InodeCache) 3 inodeA
    [(3, inodeA)] [113] (by rfl)

/-- Claim C10: for inode number 0 (with a nonempty volume so the range
check passes, and no cached entry), the u64 expression (0 - 1) wraps to
2^64 - 1, the group number becomes (2^64 - 1) / inodesPerGroup — far past
the group table of any volume whose inodesCount + inodesPerGroup stays
within u64 — so it is the failing group lookup, not the inode-number
validation, that makes getInode 0 return not-found with no read and no
cache change. -/
theorem getInode_zero_wraps (sb : LinnSuperBlock) (groups : List LinnGroup)
    (idisk : Nat → Option LinnInode) (cache : InodeCache)
    (hcount : 0 < sb.inodesCount)
    (hipg : 0 < sb.inodesPerGroup)
    (hfit : sb.inodesCount + sb.inodesPerGroup ≤ u64size)
    (hlen : groups.length = LINN_GROUP_COUNT sb)
    (hmiss : lookupCache cache 0 = none) :
    ¬ (0 ≥ sb.inodesCount) ∧
    (0 + u64size - 1) % u64size / sb.inodesPerGroup = (u64size - 1) / sb.inodesPerGroup ∧
    groups.length ≤ (u64size - 1) / sb.inodesPerGroup ∧
    getGroupByInode sb groups 0 = none ∧
    getInode sb groups idisk cache 0 = (none, cache, []) := by
  have hu : 0 < u64size := by
    have : (0:Nat) < 2 ^ 64 := Nat.pos_pow_of_pos 64 (by omega)
    simpa [u64size] using this
  have heq : (0 + u64size - 1) % u64size = u64size - 1 := by
    have : u64size - 1 < u64size := by omega
    simp [Nat.mod_eq_of_lt this]
  have hle : groups.length ≤ (u64size - 1) / sb.inodesPerGroup := by
    rw [hlen]
    unfold LINN_GROUP_COUNT
    exact Nat.div_le_div_right (by omega)
  have hgrp : getGroupByInode sb groups 0 = none := by
    unfold getGroupByInode getGroup
    rw [heq]
    exact List.get?_eq_none.mpr hle
  refine ⟨Nat.not_le.mpr hcount, by rw [heq], hle, hgrp, ?_⟩
  simp [getInode, Nat.not_le.mpr hcount, hmiss, hgrp]

/-- A small superblock matching groupsA: 5 inodes, 2 per group, so
ceil(5 / 2) = 3 group descriptors. -/
def sbB : LinnSuperBlock := ⟨16, 5, 2⟩

/-- Witness for getInode_zero_wraps over sbB (inodesCount 5,
inodesPerGroup 2) with its three groups: getInode 0 fails via the wrapped
group number, leaving the cache empty with no read. -/
theorem getInode_zero_wraps_witness :
    getGroupByInode sbB groupsA 0 = none ∧
    getInode sbB groupsA idiskA ([] : InodeCache) 0 = (none, [], []) := by
  have h := getInode_zero_wraps sbB groupsA idiskA ([] : InodeCache)
    (by decide) (by decide) (by decide) (by rfl) (by rfl)
  exact ⟨h.2.2.2.1, h.2.2.2.2⟩

/-! The file-cache tree and path resolver: lookupFile walks the path
components left to right over the tree of FileCache nodes, descending into
cached children and otherwise reading the directory entry, resolving its
inode and inserting a new child (insertFileCache). -/

/-- The in-memory file object a cache node wraps (LinnDirectory / LinnFile):
its file type and the number of the inode it was built from. -/
structure FileObj where
  ftype : FileType
  inode : Nat
  deriving DecidableEq

/-- A node of the file-cache tree: the wrapped file object plus the map
from child name to child node (FileCache with its `entries` table). -/
inductive FileCache where
  | node (file : FileObj) (entries : List (String × FileCache))

/-- Child lookup in a node's entry table (c->entries[name]). -/
def findChild : List (String × FileCache) → String → Option FileCache
  | [], _ => none
  | p :: ps, name => if p.1 = name then some p.2 else findChild ps name

/-- Replacing the child stored under a name (the in-place mutation of the
C++ child node, rendered functionally: the first entry with the name is
swapped for the updated subtree). -/
def replaceChild : List (String × FileCache) → String → FileCache →
    List (String × FileCache)
  | [], _, _ => []
  | p :: ps, name, c =>
    if p.1 = name then (p.1, c) :: ps
    else p :: replaceChild ps name c

/-- LinnFileSystem::lookupFile's walk, threading the updated tree, the
inode cache and the number of storage reads (each directory-entry fetch
counts one read; getInode contributes the reads it performs).  `ddisk`
gives the directory entry: for a directory inode number and a component
name, the inode number the entry names (none = absent or failing read;
modelled from the spec — LinnDirectory::getEntry is not present under
src/, the spec prescribes reading the directory's entry for the name and
failing when absent).  On a cache miss the source first rejects
non-directory current nodes, then fetches the entry, resolves its inode,
and inserts a Directory or RegularFile child (insertFileCache, modelled
from the spec: the new node becomes a child of the current node under the
component name and the walk continues from it); any other inode type
fails. -/
def lookupAux (sb : LinnSuperBlock) (groups : List LinnGroup)
    (idisk : Nat → Option LinnInode) (ddisk : Nat → String → Option Nat) :
    FileCache → List String → InodeCache →
    Option FileCache × FileCache × InodeCache × Nat
  | c, [], cache => (some c, c, cache, 0)
  | FileCache.node f entries, name :: rest, cache =>
    match findChild entries name with
    | some child =>
      let r := lookupAux sb groups idisk ddisk child rest cache
      (r.1, FileCache.node f (replaceChild entries name r.2.1), r.2.2.1, r.2.2.2)
    | none =>
      if f.ftype ≠ FileType.DirectoryFile then
        (none, FileCache.node f entries, cache, 0)
      else
        match ddisk f.inode name with
        | none => (none, FileCache.node f entries, cache, 1)
        | some entryInode =>
          match getInode sb groups idisk cache entryInode with
          | (none, cache2, tr) =>
            (none, FileCache.node f entries, cache2, 1 + tr.length)
          | (some ino, cache2, tr) =>
            match ino.type with
            | FileType.DirectoryFile =>
              let child := FileCache.node ⟨FileType.DirectoryFile, entryInode⟩ []
              let r := lookupAux sb groups idisk ddisk child rest cache2
              (r.1, FileCache.node f (entries ++ [(name, r.2.1)]), r.2.2.1,
                1 + tr.length + r.2.2.2)
            | FileType.RegularFile =>
              let child := FileCache.node ⟨FileType.RegularFile, entryInode⟩ []
              let r := lookupAux sb groups idisk ddisk child rest cache2
              (r.1, FileCache.node f (entries ++ [(name, r.2.1)]), r.2.2.1,
                1 + tr.length + r.2.2.2)
            | _ => (none, FileCache.node f entries, cache2, 1 + tr.length)

/-- LinnFileSystem::lookupFile: resolve a split path from the root node
("/" splits to the empty component list and yields the root itself). -/
def lookupFile (sb : LinnSuperBlock) (groups : List LinnGroup)
    (idisk : Nat → Option LinnInode) (ddisk : Nat → String → Option Nat)
    (root : FileCache) (path : List String) (cache : InodeCache) :
    Option FileCache × FileCache × InodeCache × Nat :=
  lookupAux sb groups idisk ddisk root path cache

/-- Every component of the path is already present in the cache tree. -/
def cachedPath : FileCache → List String → Bool
  | _, [] => true
  | FileCache.node _ entries, name :: rest =>
    match findChild entries name with
    | some child => cachedPath child rest
    | none => false

/-- The subtree reached by descending a fully cached path. -/
def subtreeAt : FileCache → List String → FileCache
  | c, [] => c
  | FileCache.node f entries, name :: rest =>
    match findChild entries name with
    | some child => subtreeAt child rest
    | none => FileCache.node f entries

/-- Replacing the subtree at the end of a fully cached path. -/
def updateAt : FileCache → List String → FileCache → FileCache
  | _, [], x => x
  | FileCache.node f entries, name :: rest, x =>
    match findChild entries name with
    | some child =>
      FileCache.node f (replaceChild entries name (updateAt child rest x))
    | none => FileCache.node f entries

/-- Putting back the child already stored under a name changes nothing. -/
theorem replaceChild_self (name : String) :
    ∀ entries child, findChild entries name = some child →
      replaceChild entries name child = entries
  | [], child, h => by simp [findChild] at h
  | ⟨a, b⟩ :: ps, child, h => by
    by_cases hp : a = name
    · have hc : child = b := by
        simp [findChild, hp] at h
        exact h.symm
      simp [replaceChild, hp, hc]
    · have h' : findChild ps name = some child := by
        simpa [findChild, hp] using h
      simp [replaceChild, hp, replaceChild_self name ps child h']

/-- After replacing the child under a present name, lookup finds the
replacement. -/
theorem findChild_replaceChild (name : String) (x : FileCache) :
    ∀ entries child, findChild entries name = some child →
      findChild (replaceChild entries name x) name = some x
  | [], child, h => by simp [findChild] at h
  | p :: ps, child, h => by
    by_cases hp : p.1 = name
    · simp [replaceChild, hp, findChild]
    · have h' : findChild ps name = some child := by
        simpa [findChild, hp] using h
      simpa [replaceChild, hp, findChild] using
        findChild_replaceChild name x ps child h'

/-- Appending an entry under an absent name makes lookup find it. -/
theorem findChild_append (name : String) (x : FileCache) :
    ∀ entries, findChild entries name = none →
      findChild (entries ++ [(name, x)]) name = some x
  | [], _ => by simp [findChild]
  | p :: ps, h => by
    by_cases hp : p.1 = name
    · simp [findChild, hp] at h
    · have h' : findChild ps name = none := by
        simpa [findChild, hp] using h
      simpa [findChild, hp] using findChild_append name x ps h'

/-- Resolving a fully cached path touches no storage and leaves the tree
and the inode cache untouched, returning the cached subtree. -/
theorem lookupAux_cached (sb : LinnSuperBlock) (groups : List LinnGroup)
    (idisk : Nat → Option LinnInode) (ddisk : Nat → String → Option Nat) :
    ∀ path c cache, cachedPath c path = true →
      lookupAux sb groups idisk ddisk c path cache =
        (some (subtreeAt c path), c, cache, 0)
  | [], c, cache, _ => by simp [lookupAux, subtreeAt]
  | name :: rest, FileCache.node f entries, cache, h => by
    cases hf : findChild entries name with
    | none => simp [cachedPath, hf] at h
    | some child =>
      have h' : cachedPath child rest = true := by
        simpa [cachedPath, hf] using h
      have ih := lookupAux_cached sb groups idisk ddisk rest child cache h'
      simp [lookupAux, hf, ih, subtreeAt, replaceChild_self name entries child hf]

/-- A successful walk leaves every component of its path cached, with the
returned node stored at the end of the path. -/
theorem lookupAux_success_cachedPath (sb : LinnSuperBlock) (groups : List LinnGroup)
    (idisk : Nat → Option LinnInode) (ddisk : Nat → String → Option Nat) :
    ∀ path c cache res c' cache' n,
      lookupAux sb groups idisk ddisk c path cache = (some res, c', cache', n) →
      cachedPath c' path = true ∧ subtreeAt c' path = res
  | [], c, cache, res, c', cache', n, h => by
    simp [lookupAux] at h
    obtain ⟨h1, h2, -⟩ := h
    subst h1 h2
    simp [cachedPath, subtreeAt]
  | name :: rest, FileCache.node f entries, cache, res, c', cache', n, h => by
    cases hf : findChild entries name with
    | some child =>
      rcases hE : lookupAux sb groups idisk ddisk child rest cache with ⟨o, t, cc, nn⟩
      rw [lookupAux, hf] at h
      simp [hE] at h
      obtain ⟨h1, h2, -⟩ := h
      subst h2
      obtain ⟨ih1, ih2⟩ := lookupAux_success_cachedPath sb groups idisk ddisk
        rest child cache res t cc nn (by rw [hE, h1])
      have hfr := findChild_replaceChild name t entries child hf
      exact ⟨by simp [cachedPath, hfr, ih1], by simp [subtreeAt, hfr, ih2]⟩
    | none =>
      by_cases hft : f.ftype = FileType.DirectoryFile
      · cases hd : ddisk f.inode name with
        | none => rw [lookupAux, hf] at h; simp [hft, hd] at h
        | some entryInode =>
          rcases hg : getInode sb groups idisk cache entryInode with ⟨oi, cache2, tr⟩
          cases oi with
          | none => rw [lookupAux, hf] at h; simp [hft, hd, hg] at h
          | some ino =>
            cases hty : ino.type with
            | DirectoryFile =>
              rcases hE : lookupAux sb groups idisk ddisk
                  (FileCache.node ⟨FileType.DirectoryFile, entryInode⟩ []) rest cache2
                with ⟨o, t, cc, nn⟩
              rw [lookupAux, hf] at h
              simp [hft, hd, hg, hty, hE] at h
              obtain ⟨h1, h2, -⟩ := h
              subst h2
              obtain ⟨ih1, ih2⟩ := lookupAux_success_cachedPath sb groups idisk ddisk
                rest (FileCache.node ⟨FileType.DirectoryFile, entryInode⟩ []) cache2
                res t cc nn (by rw [hE, h1])
              have hfa := findChild_append name t entries hf
              exact ⟨by simp [cachedPath, hfa, ih1], by simp [subtreeAt, hfa, ih2]⟩
            | RegularFile =>
              rcases hE : lookupAux sb groups idisk ddisk
                  (FileCache.node ⟨FileType.RegularFile, entryInode⟩ []) rest cache2
                with ⟨o, t, cc, nn⟩
              rw [lookupAux, hf] at h
              simp [hft, hd, hg, hty, hE] at h
              obtain ⟨h1, h2, -⟩ := h
              subst h2
              obtain ⟨ih1, ih2⟩ := lookupAux_success_cachedPath sb groups idisk ddisk
                rest (FileCache.node ⟨FileType.RegularFile, entryInode⟩ []) cache2
                res t cc nn (by rw [hE, h1])
              have hfa := findChild_append name t entries hf
              exact ⟨by simp [cachedPath, hfa, ih1], by simp [subtreeAt, hfa, ih2]⟩
            | BlockDeviceFile => rw [lookupAux, hf] at h; simp [hft, hd, hg, hty] at h
            | CharacterDeviceFile => rw [lookupAux, hf] at h; simp [hft, hd, hg, hty] at h
            | SymlinkFile => rw [lookupAux, hf] at h; simp [hft, hd, hg, hty] at h
            | FIFOFile => rw [lookupAux, hf] at h; simp [hft, hd, hg, hty] at h
      · rw [lookupAux, hf] at h; simp [hft] at h

/-- Putting the subtree found at the end of a cached path back in place
reproduces the original tree. -/
theorem updateAt_subtreeAt :
    ∀ path t, cachedPath t path = true → updateAt t path (subtreeAt t path) = t
  | [], _, _ => by simp [updateAt, subtreeAt]
  | name :: rest, FileCache.node f entries, h => by
    cases hf : findChild entries name with
    | none => simp [cachedPath, hf] at h
    | some child =>
      have h' : cachedPath child rest = true := by
        simpa [cachedPath, hf] using h
      simp [updateAt, subtreeAt, hf, updateAt_subtreeAt rest child h',
        replaceChild_self name entries child hf]

/-- A walk over a path with a fully cached prefix behaves as the walk of
the suffix started at the cached subtree: same outcome, same inode cache,
same number of reads, with the tree updated in place at the prefix. -/
theorem lookupAux_append_cached (sb : LinnSuperBlock) (groups : List LinnGroup)
    (idisk : Nat → Option LinnInode) (ddisk : Nat → String → Option Nat) :
    ∀ p t cache (q : List String), cachedPath t p = true →
      lookupAux sb groups idisk ddisk t (p ++ q) cache =
        ((lookupAux sb groups idisk ddisk (subtreeAt t p) q cache).1,
         updateAt t p (lookupAux sb groups idisk ddisk (subtreeAt t p) q cache).2.1,
         (lookupAux sb groups idisk ddisk (subtreeAt t p) q cache).2.2.1,
         (lookupAux sb groups idisk ddisk (subtreeAt t p) q cache).2.2.2)
  | [], t, cache, q, _ => by simp [subtreeAt, updateAt]
  | name :: rest, FileCache.node f entries, cache, q, h => by
    cases hf : findChild entries name with
    | none => simp [cachedPath, hf] at h
    | some child =>
      have h' : cachedPath child rest = true := by
        simpa [cachedPath, hf] using h
      have ih := lookupAux_append_cached sb groups idisk ddisk rest child cache q h'
      simp [List.cons_append, lookupAux, hf, ih, subtreeAt, updateAt]

/-- Claim C6: failing per-request operations leave the caches unchanged:
a getInode call that returns not-found (for any reason) returns the inode
cache it was given, and a lookupFile walk that fails at the current
component — non-directory current node, absent directory entry, failing
inode resolution, or unsupported inode type — returns the current node
with its entry table unchanged, never inserting a child for the failing
component. -/
theorem failing_ops_leave_caches (sb : LinnSuperBlock) (groups : List LinnGroup)
    (idisk : Nat → Option LinnInode) (ddisk : Nat → String → Option Nat) :
    (∀ cache n, (getInode sb groups idisk cache n).1 = none →
      (getInode sb groups idisk cache n).2.1 = cache) ∧
    (∀ f entries name (rest : List String) cache,
      findChild entries name = none →
      f.ftype ≠ FileType.DirectoryFile →
      lookupAux sb groups idisk ddisk (FileCache.node f entries) (name :: rest) cache =
        (none, FileCache.node f entries, cache, 0)) ∧
    (∀ f entries name (rest : List String) cache,
      findChild entries name = none →
      f.ftype = FileType.DirectoryFile →
      ddisk f.inode name = none →
      lookupAux sb groups idisk ddisk (FileCache.node f entries) (name :: rest) cache =
        (none, FileCache.node f entries, cache, 1)) ∧
    (∀ f entries name (rest : List String) cache e cache2 tr,
      findChild entries name = none →
      f.ftype = FileType.DirectoryFile →
      ddisk f.inode name = some e →
      getInode sb groups idisk cache e = (none, cache2, tr) →
      lookupAux sb groups idisk ddisk (FileCache.node f entries) (name :: rest) cache =
        (none, FileCache.node f entries, cache2, 1 + tr.length)) ∧
    (∀ f entries name (rest : List String) cache e ino cache2 tr,
      findChild entries name = none →
      f.ftype = FileType.DirectoryFile →
      ddisk f.inode name = some e →
      getInode sb groups idisk cache e = (some ino, cache2, tr) →
      ino.type ≠ FileType.DirectoryFile →
      ino.type ≠ FileType.RegularFile →
      lookupAux sb groups idisk ddisk (FileCache.node f entries) (name :: rest) cache =
        (none, FileCache.node f entries, cache2, 1 + tr.length)) := by
  refine ⟨fun cache n h => ?_, fun f entries name rest cache hm hft => ?_,
    fun f entries name rest cache hm hft hd => ?_,
    fun f entries name rest cache e cache2 tr hm hft hd hg => ?_,
    fun f entries name rest cache e ino cache2 tr hm hft hd hg hnd hnr => ?_⟩
  · by_cases hge : n ≥ sb.inodesCount
    · simp [getInode, hge]
    · cases hc : lookupCache cache n with
      | some i => simp [getInode, hge, hc]
      | none =>
        cases hgr : getGroupByInode sb groups n with
        | none => simp [getInode, hge, hc, hgr]
        | some g =>
          cases hd : idisk ((g.inodeTable * sb.blockSize +
              n % sb.inodesPerGroup) % u64size) with
          | none => simp [getInode, hge, hc, hgr, hd]
          | some i => simp [getInode, hge, hc, hgr, hd] at h
  · simp [lookupAux, hm, hft]
  · simp [lookupAux, hm, hft, hd]
  · simp [lookupAux, hm, hft, hd, hg]
  · cases hty : ino.type with
    | DirectoryFile => exact absurd hty hnd
    | RegularFile => exact absurd hty hnr
    | BlockDeviceFile => simp [lookupAux, hm, hft, hd, hg, hty]
    | CharacterDeviceFile => simp [lookupAux, hm, hft, hd, hg, hty]
    | SymlinkFile => simp [lookupAux, hm, hft, hd, hg, hty]
    | FIFOFile => simp [lookupAux, hm, hft, hd, hg, hty]

/-- Claim C8: when the walk's fully cached prefix ends at a node wrapping
a non-directory object and the next component is not cached below it,
lookupFile fails right there: no directory-entry read, no inode
resolution, no attempt at the remaining components, tree and inode cache
unchanged and zero storage reads. -/
theorem lookupFile_nondirectory_stops (sb : LinnSuperBlock) (groups : List LinnGroup)
    (idisk : Nat → Option LinnInode) (ddisk : Nat → String → Option Nat)
    (root : FileCache) (pre : List String) (f : FileObj)
    (entries : List (String × FileCache)) (name : String) (rest : List String)
    (cache : InodeCache)
    (hcp : cachedPath root pre = true)
    (hsub : subtreeAt root pre = FileCache.node f entries)
    (hft : f.ftype ≠ FileType.DirectoryFile)
    (hmiss : findChild entries name = none) :
    lookupFile sb groups idisk ddisk root (pre ++ name :: rest) cache =
      (none, root, cache, 0) := by
  have hC := lookupAux_append_cached sb groups idisk ddisk pre root cache
    (name :: rest) hcp
  rw [hsub] at hC
  have hstep : lookupAux sb groups idisk ddisk (FileCache.node f entries)
      (name :: rest) cache = (none, FileCache.node f entries, cache, 0) := by
    simp [lookupAux, hmiss, hft]
  have hupd : updateAt root pre (FileCache.node f entries) = root := by
    rw [← hsub]
    exact updateAt_subtreeAt pre root hcp
  rw [lookupFile, hC, hstep]
  simp [hupd]

/-- Claim C7: once a lookupFile call for a path has succeeded, a repeat
call for the same path returns the identical cached node with the tree and
inode cache untouched and zero storage reads; and any longer path with
this path as prefix resolves the prefix purely from the cache: the walk of
path ++ q has the outcome, inode cache and read count of the walk of q
alone started at the found node, the tree changing only by that walk's
update in place. -/
theorem lookupFile_idempotent (sb : LinnSuperBlock) (groups : List LinnGroup)
    (idisk : Nat → Option LinnInode) (ddisk : Nat → String → Option Nat)
    (root : FileCache) (path : List String) (cache : InodeCache)
    (res root' : FileCache) (cache' : InodeCache) (n : Nat)
    (h : lookupFile sb groups idisk ddisk root path cache = (some res, root', cache', n)) :
    lookupFile sb groups idisk ddisk root' path cache' = (some res, root', cache', 0) ∧
    ∀ q, lookupFile sb groups idisk ddisk root' (path ++ q) cache' =
      ((lookupFile sb groups idisk ddisk res q cache').1,
       updateAt root' path (lookupFile sb groups idisk ddisk res q cache').2.1,
       (lookupFile sb groups idisk ddisk res q cache').2.2.1,
       (lookupFile sb groups idisk ddisk res q cache').2.2.2) := by
  obtain ⟨hcp, hsub⟩ := lookupAux_success_cachedPath sb groups idisk ddisk
    path root cache res root' cache' n h
  constructor
  · have hA := lookupAux_cached sb groups idisk ddisk path root' cache' hcp
    rw [lookupFile, hA, hsub]
  · intro q
    have hC := lookupAux_append_cached sb groups idisk ddisk path root' cache' q hcp
    rw [hsub] at hC
    exact hC

/-! Concrete data for the path-resolver witnesses. -/

/-- The root directory's file object (root inode number 1). -/
def objDirRoot : FileObj := ⟨FileType.DirectoryFile, 1⟩

/-- An empty root cache node. -/
def rootA : FileCache := FileCache.node objDirRoot []

/-- The regular-file child node built for inode 3. -/
def childA : FileCache := FileCache.node ⟨FileType.RegularFile, 3⟩ []

/-- The root node after caching child "a". -/
def rootB : FileCache := FileCache.node objDirRoot [("a", childA)]

/-- A directory reader on which every directory holds every name, naming
inode 3. -/
def ddiskA : Nat → String → Option Nat := fun _ _ => some 3

/-- A directory reader on which every entry fetch fails. -/
def ddiskNone : Nat → String → Option Nat := fun _ _ => none

/-- An inode storage on which every read fails. -/
def idiskNone : Nat → Option LinnInode := fun _ => none

/-- An inode record of unsupported (symlink) type. -/
def symRec : LinnInode := ⟨FileType.SymlinkFile, 0, []⟩

/-- An inode storage holding the symlink record at every offset. -/
def idiskSym : Nat → Option LinnInode := fun _ => some symRec

/-- Witness for failing_ops_leave_caches: getInode 0 fails leaving the
empty cache empty; a regular-file node rejects a miss with zero reads; a
failing entry fetch costs one read; a failing inode read costs two reads
total; an unsupported inode type fails with the failing component left out
of the entry table while the inode cache keeps the loaded record. -/
theorem failing_ops_leave_caches_witness :
    (getInode sbB groupsA idiskA ([] : InodeCache) 0).2.1 = [] ∧
    lookupAux sbA groupsA idiskA ddiskA childA ["x"] [] = (none, childA, [], 0) ∧
    lookupAux sbA groupsA idiskA ddiskNone rootA ["x"] [] = (none, rootA, [], 1) ∧
    lookupAux sbA groupsA idiskNone ddiskA rootA ["x"] [] = (none, rootA, [], 2) ∧
    lookupAux sbA groupsA idiskSym ddiskA rootA ["x"] [] =
      (none, rootA, [(3, symRec)], 2) :=
  ⟨(failing_ops_leave_caches sbB groupsA idiskA ddiskA).1 [] 0 (by rfl),
   (failing_ops_leave_caches sbA groupsA idiskA ddiskA).2.1
     ⟨FileType.RegularFile, 3⟩ [] "x" [] [] (by rfl) (by decide),
   (failing_ops_leave_caches sbA groupsA idiskA ddiskNone).2.2.1
     objDirRoot [] "x" [] [] (by rfl) (by rfl) (by rfl),
   (failing_ops_leave_caches sbA groupsA idiskNone ddiskA).2.2.2.1
     objDirRoot [] "x" [] [] 3 [] [113] (by rfl) (by rfl) (by rfl) (by rfl),
   (failing_ops_leave_caches sbA groupsA idiskSym ddiskA).2.2.2.2
     objDirRoot [] "x" [] [] 3 symRec [(3, symRec)] [113]
     (by rfl) (by rfl) (by rfl) (by rfl) (by decide) (by decide)⟩

/-- Witness for lookupFile_nondirectory_stops: under the cached prefix
["a"] ending at the regular-file node, looking up "/a/x/y" fails with zero
reads and no change to tree or cache. -/
theorem lookupFile_nondirectory_stops_witness :
    lookupFile sbA groupsA idiskA ddiskA rootB (["a"] ++ "x" :: ["y"]) [] =
      (none, rootB, [], 0) :=
  lookupFile_nondirectory_stops sbA groupsA idiskA ddiskA rootB ["a"]
    ⟨FileType.RegularFile, 3⟩ [] "x" ["y"] [] (by rfl) (by rfl)
    (by decide) (by rfl)

/-- Witness for lookupFile_idempotent: after "/a" resolves (two reads,
inserting child "a" and caching inode 3), repeating the lookup returns the
identical node with zero reads and no changes, and the longer path "/a/b"
fails on the regular file "a" with zero reads, the tree and cache again
untouched. -/
theorem lookupFile_idempotent_witness :
    lookupFile sbA groupsA idiskA ddiskA rootB ["a"] [(3, inodeA)] =
      (some childA, rootB, [(3, inodeA)], 0) ∧
    lookupFile sbA groupsA idiskA ddiskA rootB (["a"] ++ ["b"]) [(3, inodeA)] =
      (none, rootB, [(3, inodeA)], 0) := by
  have h := lookupFile_idempotent sbA groupsA idiskA ddiskA rootA ["a"] []
    childA rootB [(3, inodeA)] 2 (by rfl)
  refine ⟨h.1, ?_⟩
  rw [h.2 ["b"]]
  rfl

end LinnFS
